import Mathlib

/-!
Verification development for the Neural Hive orchestration core.

The TypeScript sources are shallowly embedded:
JavaScript `Map` objects become insertion-ordered association lists
(`JsMap`), callbacks that fire events become explicit event lists,
`Date.now()` becomes an explicit `now : Int` argument, and code that can
throw is modelled with explicit error parameters.  Each definition names
the source symbol it embeds.
-/

namespace NeuralHive

/-- Agent status vocabulary, from `src/types/shared`: `AgentStatus`. -/
inductive AgentStatus
  | IDLE
  | THINKING
  | WORKING
  | ERROR
  | WAITING_USER
  | PAUSED
  | STALLED
  deriving DecidableEq, Repr

/-- Insertion-ordered association list modelling a JavaScript `Map` with
string keys.  `set` replaces in place for an existing key and appends for
a new key; `delete` removes the entry; iteration order is list order,
exactly as for a JavaScript `Map`. -/
abbrev JsMap (α : Type) : Type := List (String × α)

/-- `Map.prototype.get`: value of the first entry with the key. -/
def JsMap.get {α : Type} (m : JsMap α) (k : String) : Option α :=
  (List.find? (fun p => p.1 == k) m).map Prod.snd

/-- `Map.prototype.has`. -/
def JsMap.hasKey {α : Type} (m : JsMap α) (k : String) : Bool :=
  List.any m (fun p => p.1 == k)

/-- `Map.prototype.set`: in-place update for an existing key, append for a
new one. -/
def JsMap.set {α : Type} (m : JsMap α) (k : String) (v : α) : JsMap α :=
  if m.hasKey k then m.map (fun p => if p.1 == k then (k, v) else p)
  else m ++ [(k, v)]

/-- `Map.prototype.delete`. -/
def JsMap.delete {α : Type} (m : JsMap α) (k : String) : JsMap α :=
  List.filter (fun p => !(p.1 == k)) m

/-! ### Basic JsMap lemmas -/

/-! ## Output Throttler (`electron/output-throttler.ts`, class `OutputThrottler`) -/

/-- `OutputThrottler.push`: ensures a chunk list exists for the agent, then
appends the chunk to it. -/
def OutputThrottler.push (buffer : JsMap (List String)) (agentId data : String) :
    JsMap (List String) :=
  let buffer1 := if buffer.hasKey agentId then buffer else buffer.set agentId []
  match buffer1.get agentId with
  | some chunks => buffer1.set agentId (chunks ++ [data])
  | none => buffer1

/-- `OutputThrottler.flush`: walks the buffer in insertion order; every agent
with a non-empty chunk list has its chunks concatenated, its entry cleared to
the empty list, and the sink callback invoked once.  Sink invocations are
returned as the second component; a sink callback that throws
(`throws agentId = true`) is caught and turns into a logged error line (third
component) instead of aborting the walk. -/
def OutputThrottler.flush (throws : String → Bool) :
    JsMap (List String) → JsMap (List String) × List (String × String) × List String
  | [] => ([], [], [])
  | (agentId, chunks) :: rest =>
    let r := OutputThrottler.flush throws rest
    if chunks.length > 0 then
      ((agentId, []) :: r.1,
       (agentId, String.join chunks) :: r.2.1,
       (if throws agentId then ["Error flushing data for agent " ++ agentId] else []) ++ r.2.2)
    else
      ((agentId, chunks) :: r.1, r.2.1, r.2.2)

/-- `OutputThrottler.flushAgent`: immediate out-of-band flush of one agent. -/
def OutputThrottler.flushAgent (buffer : JsMap (List String)) (agentId : String) :
    JsMap (List String) × List (String × String) :=
  match buffer.get agentId with
  | some chunks =>
    if chunks.length > 0 then (buffer.set agentId [], [(agentId, String.join chunks)])
    else (buffer, [])
  | none => (buffer, [])

/-- `OutputThrottler.removeAgent`: drops buffered data with no flush. -/
def OutputThrottler.removeAgent (buffer : JsMap (List String)) (agentId : String) :
    JsMap (List String) :=
  buffer.delete agentId

/-! ## Health Monitor (`electron/health-monitor.ts`, class `HealthMonitor`) -/

/-- The busy check `status === WORKING || status === THINKING` used by
`HealthMonitor.updateStatus` and `HealthMonitor.checkHealth`. -/
def AgentStatus.isBusy (s : AgentStatus) : Bool :=
  s == AgentStatus.WORKING || s == AgentStatus.THINKING

/-- The two tracking maps of `HealthMonitor`. -/
structure HealthMonitorState where
  lastActivity : JsMap Int
  agentStatuses : JsMap AgentStatus
  deriving DecidableEq, Repr

/-- `HealthMonitor.recordActivity`: stamps the activity time, and records the
status when one is given. -/
def HealthMonitor.recordActivity (h : HealthMonitorState) (now : Int) (agentId : String)
    (status : Option AgentStatus) : HealthMonitorState :=
  { lastActivity := h.lastActivity.set agentId now,
    agentStatuses :=
      match status with
      | some s => h.agentStatuses.set agentId s
      | none => h.agentStatuses }

/-- `HealthMonitor.updateStatus`: records the status; a status other than
`WORKING` or `THINKING` also resets the activity timestamp to now. -/
def HealthMonitor.updateStatus (h : HealthMonitorState) (now : Int) (agentId : String)
    (status : AgentStatus) : HealthMonitorState :=
  let h1 : HealthMonitorState := { h with agentStatuses := h.agentStatuses.set agentId status }
  if status.isBusy then h1
  else { h1 with lastActivity := h1.lastActivity.set agentId now }

/-- `HealthMonitor.untrack`. -/
def HealthMonitor.untrack (h : HealthMonitorState) (agentId : String) : HealthMonitorState :=
  { lastActivity := h.lastActivity.delete agentId,
    agentStatuses := h.agentStatuses.delete agentId }

/-- `HealthMonitor.checkHealth`: one watchdog tick.  Walks the activity map;
each agent recorded busy whose inactivity exceeds the stall timeout yields
one `(agentId, duration)` stall-callback invocation, returned in walk
order. -/
def HealthMonitor.checkHealth (now stallTimeout : Int) :
    JsMap Int → JsMap AgentStatus → List (String × Int)
  | [], _ => []
  | (agentId, lastActive) :: rest, statuses =>
    let tail := HealthMonitor.checkHealth now stallTimeout rest statuses
    match statuses.get agentId with
    | some status =>
      if status.isBusy then
        if now - lastActive > stallTimeout then (agentId, now - lastActive) :: tail else tail
      else tail
    | none => tail

/-! ## Broadcast Manager (`electron/broadcast-manager.ts`, class `BroadcastManager`) -/

/-- `new Set(tags)` read back with `Array.from`: insertion-order
deduplication of a list. -/
def jsSet (tags : List String) : List String :=
  tags.foldl (fun acc t => if acc.contains t then acc else acc ++ [t]) []

/-- `BroadcastManager.setTags`: stores the tag set unconditionally, with no
check that the id belongs to a live session. -/
def BroadcastManager.setTags (agentTags : JsMap (List String)) (agentId : String)
    (tags : List String) : JsMap (List String) :=
  agentTags.set agentId (jsSet tags)

/-- `BroadcastManager.getTags`: stored tags, or the empty array when the id
has no entry. -/
def BroadcastManager.getTags (agentTags : JsMap (List String)) (agentId : String) :
    List String :=
  (agentTags.get agentId).getD []

/-- `BroadcastManager.removeAgent`. -/
def BroadcastManager.removeAgent (agentTags : JsMap (List String)) (agentId : String) :
    JsMap (List String) :=
  agentTags.delete agentId

/-- `BroadcastOptions` from `broadcast-manager.ts`.  The source field name
`variables` is a reserved word in Lean, so it is called `vars` here; it keeps
the `Object.entries` order of the record. -/
structure BroadcastOptions where
  tags : Option (List String)
  template : String
  vars : Option (List (String × List String))

/-- ECMAScript `GetSubstitution` applied to a string replacement for a
regex with no capture groups: `$$` yields a dollar, `$&` re-inserts the
matched text, dollar-backquote (`$` then `\x60`) splices in the part of the
subject before the match and dollar-quote (`$` then `\x27`) the part after
it; a dollar followed by anything else (including `$1` and `$<`, since there
are no capture groups) stays literal and scanning continues after the
dollar. -/
def getSubstitution (matched before after : List Char) : List Char → List Char
  | [] => []
  | [c] => [c]
  | c :: d :: r =>
    if c == '$' then
      if d == '$' then '$' :: getSubstitution matched before after r
      else if d == '&' then matched ++ getSubstitution matched before after r
      else if d == '\x60' then before ++ getSubstitution matched before after r
      else if d == '\x27' then after ++ getSubstitution matched before after r
      else c :: getSubstitution matched before after (d :: r)
    else c :: getSubstitution matched before after (d :: r)

/-- Leftmost, non-overlapping, global replacement on character lists, with
explicit fuel so that it evaluates by kernel reduction.  This is the effect
of `command.replace(pattern, value)` with a global regex whose
metacharacters were escaped by `escapeRegex` (so every match is the literal
pattern) and a string replacement, which ECMAScript passes through
`GetSubstitution`: `str` is the whole subject, `pos` the current position in
it, used to build the before/after context of each match.  An empty pattern
never occurs here (the pattern is always brace-wrapped) and is treated as no
match. -/
def jsReplaceAllAux (str pat val : List Char) : Nat → Nat → List Char → List Char
  | 0, _, s => s
  | _ + 1, _, [] => []
  | fuel + 1, pos, c :: rest =>
    if pat ≠ [] ∧ pat.isPrefixOf (c :: rest) then
      getSubstitution pat (str.take pos) (str.drop (pos + pat.length)) val ++
        jsReplaceAllAux str pat val fuel (pos + pat.length) ((c :: rest).drop pat.length)
    else
      c :: jsReplaceAllAux str pat val fuel (pos + 1) rest

/-- String wrapper for `jsReplaceAllAux`: `s.replace(new RegExp(escaped,
g-flag), val)`. -/
def jsReplaceAll (s pat val : String) : String :=
  String.mk (jsReplaceAllAux s.data pat.data val.data s.data.length 0 s.data)

/-- Plain literal insertion of the replacement value, exactly as the
original claim words the substitution; it is compared against the
ECMAScript behaviour of `jsReplaceAll` and coincides with it whenever the
value contains no dollar. -/
def literalReplaceAllAux (pat val : List Char) : Nat → List Char → List Char
  | 0, s => s
  | _ + 1, [] => []
  | fuel + 1, c :: rest =>
    if pat ≠ [] ∧ pat.isPrefixOf (c :: rest) then
      val ++ literalReplaceAllAux pat val fuel ((c :: rest).drop pat.length)
    else
      c :: literalReplaceAllAux pat val fuel rest

/-- String wrapper for `literalReplaceAllAux`. -/
def literalReplaceAll (s pat val : String) : String :=
  String.mk (literalReplaceAllAux pat.data val.data s.data.length s.data)

/-- The command computed for the target at position `index`, from the body of
the `targetAgents.forEach` loop in `BroadcastManager.prepareBroadcast`.
`values[index % values.length] || ''` yields the empty string when the value
list is empty.  Every occurrence of the brace-wrapped name matches literally
because `escapeRegex` escapes every regex metacharacter of the variable name
before the global pattern is built; the inserted text is the value under the
ECMAScript `GetSubstitution` rules of `String.prototype.replace`. -/
def BroadcastManager.resolveCommand (options : BroadcastOptions) (index : Nat) : String :=
  match options.vars with
  | none => options.template
  | some vars =>
    vars.foldl
      (fun command q =>
        let values := q.2
        let value := if values.length = 0 then "" else values.getD (index % values.length) ""
        jsReplaceAll command ("\x7b" ++ q.1 ++ "\x7d") value)
      options.template

/-- `BroadcastManager.prepareBroadcast`: selects the targets (all ids when
`tags` is absent or empty, otherwise the ids whose stored tag set meets the
given tags) and builds the id-to-resolved-command map in target order. -/
def BroadcastManager.prepareBroadcast (agentTags : JsMap (List String))
    (options : BroadcastOptions) (allAgentIds : List String) : JsMap String :=
  let targetAgents : List String :=
    match options.tags with
    | some ts =>
      if ts.length > 0 then
        allAgentIds.filter (fun agentId =>
          match agentTags.get agentId with
          | none => false
          | some tagSet => ts.any (fun tag => tagSet.contains tag))
      else allAgentIds
    | none => allAgentIds
  targetAgents.enum.foldl
    (fun result p => result.set p.2 (BroadcastManager.resolveCommand options p.1))
    []

/-- The target list exactly as the specification words it: every id of
`allAgentIds` when `tags` is omitted or empty, otherwise exactly those ids
whose stored tag set contains at least one of the given tags. -/
def specBroadcastTargets (agentTags : JsMap (List String)) (tags : Option (List String))
    (allAgentIds : List String) : List String :=
  if (tags.getD []).isEmpty then allAgentIds
  else
    allAgentIds.filter (fun agentId =>
      decide (∃ tag ∈ tags.getD [], tag ∈ BroadcastManager.getTags agentTags agentId))

/-- The resolved command as the amended claim words it: for each named
variable with value list `vs`, every literal occurrence of the brace-wrapped
name in the template is replaced by `vs[index % |vs|]` (the empty string
when `vs` is empty) interpreted under the ECMAScript `GetSubstitution`
rules, which is plain literal insertion whenever the value contains no
dollar. -/
def specResolveCommand (template : String) (varList : Option (List (String × List String)))
    (index : Nat) : String :=
  (varList.getD []).foldl
    (fun command q =>
      jsReplaceAll command ("\x7b" ++ q.1 ++ "\x7d")
        (if q.2.isEmpty then "" else q.2.getD (index % q.2.length) ""))
    template

/-- The broadcast mapping exactly as the specification words it: the target
at position `i` of the target list is mapped to the template resolved at
index `i`. -/
def specPrepareBroadcast (agentTags : JsMap (List String)) (options : BroadcastOptions)
    (allAgentIds : List String) : List (String × String) :=
  (specBroadcastTargets agentTags options.tags allAgentIds).enum.map
    (fun p => (p.2, specResolveCommand options.template options.vars p.1))

/-! ## Agent Manager (`electron/agent-manager.ts`, class `AgentManager`) -/

/-- The pty handle; of the underlying `IPty` object only the process id is
relevant to the tracked state. -/
structure PtyHandle where
  pid : Nat
  deriving DecidableEq, Repr

/-- `AgentMetadata` from `agent-manager.ts`. -/
structure AgentMetadata where
  id : String
  type : String
  pid : Nat
  createdAt : Int
  cwd : String
  deriving DecidableEq, Repr

/-- The mutable state of `AgentManager` together with the component states
it delegates to: the output-throttler buffer, the resource-monitor pid
table, the health monitor and the broadcast tag registry.  `windowAlive`
models `mainWindow && !mainWindow.isDestroyed()`. -/
structure AgentManagerState where
  ptyProcesses : JsMap PtyHandle
  agentMetadata : JsMap AgentMetadata
  pausedAgents : JsMap AgentStatus
  pausedOutputBuffers : JsMap String
  throttlerBuffer : JsMap (List String)
  trackedPids : JsMap Nat
  health : HealthMonitorState
  agentTags : JsMap (List String)
  windowAlive : Bool
  deriving DecidableEq, Repr

/-- IPC events sent to the renderer window. -/
inductive ManagerEvent
  | agentUpdate (agentId data : String)
  | statusChange (agentId : String) (status : AgentStatus)
  | agentExit (agentId : String) (exitCode : Int)
  deriving DecidableEq, Repr

/-- The `{success, error?}` result shape of kill, pause and resume. -/
structure OpResult where
  success : Bool
  error : Option String
  deriving DecidableEq, Repr

/-- `ResourceMonitor.track` (`electron/resource-monitor.ts`): `Map.set` on
the agentId-to-pid table (the polling interval bookkeeping does not touch
the table). -/
def ResourceMonitor.track (t : JsMap Nat) (agentId : String) (pid : Nat) : JsMap Nat :=
  t.set agentId pid

/-- `ResourceMonitor.untrack`: `Map.delete` on the pid table. -/
def ResourceMonitor.untrack (t : JsMap Nat) (agentId : String) : JsMap Nat :=
  t.delete agentId

/-- `AgentManager.cleanupAgent`. -/
def AgentManager.cleanupAgent (s : AgentManagerState) (agentId : String) : AgentManagerState :=
  { s with
    throttlerBuffer := OutputThrottler.removeAgent s.throttlerBuffer agentId
    trackedPids := ResourceMonitor.untrack s.trackedPids agentId
    health := HealthMonitor.untrack s.health agentId
    pausedAgents := s.pausedAgents.delete agentId
    ptyProcesses := s.ptyProcesses.delete agentId
    agentMetadata := s.agentMetadata.delete agentId
    agentTags := BroadcastManager.removeAgent s.agentTags agentId
    pausedOutputBuffers := s.pausedOutputBuffers.delete agentId }

/-- `AgentManager.killAgent`.  `killError = some e` models `ptyProcess.kill()`
throwing with message `e`; the catch branch returns the error result and the
cleanup call is skipped. -/
def AgentManager.killAgent (s : AgentManagerState) (agentId : String)
    (killError : Option String) : AgentManagerState × List ManagerEvent × OpResult :=
  match s.ptyProcesses.get agentId with
  | none => (s, [], ⟨false, some ("Agent " ++ agentId ++ " not found")⟩)
  | some _ =>
    match killError with
    | some e => (s, [], ⟨false, some e⟩)
    | none => (AgentManager.cleanupAgent s agentId, [], ⟨true, none⟩)

/-- The `ptyProcess.onExit` handler registered by `AgentManager.spawnAgent`:
flush then remove the throttler entry, untrack resources and health, drop
the pty, metadata, tag, paused-status and paused-output entries, then notify
the renderer of the exit. -/
def AgentManager.handleExit (s : AgentManagerState) (agentId : String) (exitCode : Int) :
    AgentManagerState × List ManagerEvent :=
  let fr := OutputThrottler.flushAgent s.throttlerBuffer agentId
  let updateEvents :=
    if s.windowAlive then fr.2.map (fun e => ManagerEvent.agentUpdate e.1 e.2) else []
  let s1 : AgentManagerState :=
    { s with
      throttlerBuffer := OutputThrottler.removeAgent fr.1 agentId
      trackedPids := ResourceMonitor.untrack s.trackedPids agentId
      health := HealthMonitor.untrack s.health agentId
      ptyProcesses := s.ptyProcesses.delete agentId
      agentMetadata := s.agentMetadata.delete agentId
      agentTags := BroadcastManager.removeAgent s.agentTags agentId
      pausedAgents := s.pausedAgents.delete agentId
      pausedOutputBuffers := s.pausedOutputBuffers.delete agentId }
  (s1, updateEvents ++ (if s.windowAlive then [ManagerEvent.agentExit agentId exitCode] else []))

/-- `AgentManager.pauseAgent`.  Note that the paused-status map receives the
constant `IDLE`, not the current status. -/
def AgentManager.pauseAgent (s : AgentManagerState) (agentId : String) (now : Int) :
    AgentManagerState × List ManagerEvent × OpResult :=
  match s.ptyProcesses.get agentId with
  | none => (s, [], ⟨false, some "AGENT_NOT_FOUND"⟩)
  | some _ =>
    if s.pausedAgents.hasKey agentId then (s, [], ⟨true, none⟩)
    else
      let paused := s.pausedAgents.set agentId AgentStatus.IDLE
      let events :=
        if s.windowAlive then [ManagerEvent.statusChange agentId AgentStatus.PAUSED] else []
      let health := HealthMonitor.updateStatus s.health now agentId AgentStatus.PAUSED
      ({ s with pausedAgents := paused, health := health }, events, ⟨true, none⟩)

/-- `AgentManager.resumeAgent`: emits the stored pre-pause status (default
`IDLE`), records `WORKING` with fresh activity in the health monitor, and
pushes the paused-output side buffer into the throttler when non-empty
(JavaScript truthiness: an empty buffered string is left in place). -/
def AgentManager.resumeAgent (s : AgentManagerState) (agentId : String) (now : Int) :
    AgentManagerState × List ManagerEvent × OpResult :=
  if ¬ s.ptyProcesses.hasKey agentId then (s, [], ⟨false, some "AGENT_NOT_FOUND"⟩)
  else if ¬ s.pausedAgents.hasKey agentId then (s, [], ⟨true, none⟩)
  else
    let previousStatus := (s.pausedAgents.get agentId).getD AgentStatus.IDLE
    let paused := s.pausedAgents.delete agentId
    let events :=
      if s.windowAlive then [ManagerEvent.statusChange agentId previousStatus] else []
    let h1 := HealthMonitor.updateStatus s.health now agentId AgentStatus.WORKING
    let h2 := HealthMonitor.recordActivity h1 now agentId none
    let s2 : AgentManagerState := { s with pausedAgents := paused, health := h2 }
    match s2.pausedOutputBuffers.get agentId with
    | some bufferedOutput =>
      if bufferedOutput ≠ "" then
        ({ s2 with
            throttlerBuffer := OutputThrottler.push s2.throttlerBuffer agentId bufferedOutput
            pausedOutputBuffers := s2.pausedOutputBuffers.delete agentId },
         events, ⟨true, none⟩)
      else (s2, events, ⟨true, none⟩)
    | none => (s2, events, ⟨true, none⟩)

/-- `AgentManager.setTags`: delegates to the broadcast manager with no check
that the id belongs to a live session, and always returns true. -/
def AgentManager.setTags (s : AgentManagerState) (agentId : String) (tags : List String) :
    AgentManagerState × Bool :=
  ({ s with agentTags := BroadcastManager.setTags s.agentTags agentId tags }, true)

/-- `AgentManager.getTags`. -/
def AgentManager.getTags (s : AgentManagerState) (agentId : String) : List String :=
  BroadcastManager.getTags s.agentTags agentId

/-- The `{success, agentId?, error?}` result of spawn. -/
structure SpawnAgentResult where
  success : Bool
  agentId : Option String
  error : Option String
  deriving DecidableEq, Repr

/-- `AgentManager.spawnAgent`.  The file-system probing of the candidate
script paths and `pty.spawn` are modelled by parameters: `scriptFound` says
whether any candidate path exists, `ptySpawn` is the outcome of `pty.spawn`
(a pid, or the message of the thrown error).  The success path registers the
pty, the metadata, resource tracking and an `IDLE` health record; both
failure paths return a failed result and register nothing. -/
def AgentManager.spawnAgent (s : AgentManagerState) (agentId agentType cwd : String)
    (now : Int) (scriptFound : Bool) (ptySpawn : Except String Nat) :
    AgentManagerState × SpawnAgentResult :=
  if ¬ scriptFound then
    (s, ⟨false, none, some "Internal Error: Could not locate agent script"⟩)
  else
    match ptySpawn with
    | .error msg => (s, ⟨false, none, some msg⟩)
    | .ok pid =>
      ({ s with
          ptyProcesses := s.ptyProcesses.set agentId ⟨pid⟩
          agentMetadata := s.agentMetadata.set agentId ⟨agentId, agentType, pid, now, cwd⟩
          trackedPids := ResourceMonitor.track s.trackedPids agentId pid
          health := HealthMonitor.recordActivity s.health now agentId (some AgentStatus.IDLE) },
       ⟨true, some agentId, none⟩)

/-- A log entry of the renderer agent store. -/
structure LogEntry where
  timestamp : Int
  content : String
  type : String
  deriving DecidableEq, Repr

/-- `AgentSession` of the renderer agent store (subset: the fields the spawn
path writes). -/
structure AgentSession where
  id : String
  name : String
  type : String
  status : AgentStatus
  cwd : String
  logs : List LogEntry
  createdAt : Int
  deriving DecidableEq, Repr

/-- `agentStore.spawnAgent` (renderer store), from the point where the main
process has answered: a successful result records an `IDLE` session under
the returned id; a result carrying an error is thrown and caught, and a
degraded `ERROR` session is recorded under the locally generated fallback id
with one diagnostic log line (`Failed to spawn agent: ${error}` where the
caught `Error` object stringifies as `Error: <message>`). -/
def agentStore.spawnAgent (agents : JsMap AgentSession)
    (fallbackId name agentType cwd : String) (now : Int)
    (result : SpawnAgentResult) : JsMap AgentSession × String :=
  if result.success && result.agentId.isSome then
    let id := result.agentId.getD fallbackId
    (agents.set id ⟨id, name, agentType, AgentStatus.IDLE, cwd, [], now⟩, id)
  else
    match result.error with
    | some err =>
      (agents.set fallbackId
        ⟨fallbackId, name, agentType, AgentStatus.ERROR, cwd,
          [⟨now, "Failed to spawn agent: Error: " ++ err, "system"⟩], now⟩,
       fallbackId)
    | none =>
      (agents.set fallbackId ⟨fallbackId, name, agentType, AgentStatus.IDLE, cwd, [], now⟩,
       fallbackId)

/-- All per-id tracker entries are absent. -/
def AgentManagerState.noTrackerEntry (s : AgentManagerState) (agentId : String) : Bool :=
  !(JsMap.hasKey s.throttlerBuffer agentId) &&
  !(JsMap.hasKey s.health.lastActivity agentId) &&
  !(JsMap.hasKey s.health.agentStatuses agentId) &&
  !(JsMap.hasKey s.agentTags agentId) &&
  !(JsMap.hasKey s.pausedAgents agentId) &&
  !(JsMap.hasKey s.pausedOutputBuffers agentId) &&
  !(JsMap.hasKey s.ptyProcesses agentId) &&
  !(JsMap.hasKey s.agentMetadata agentId) &&
  !(JsMap.hasKey s.trackedPids agentId)

/-- A live one-agent state whose health-recorded status is `WORKING`, used
to exhibit the pause/resume round-trip behaviour of C2. -/
def c2State : AgentManagerState :=
  ⟨[("a1", ⟨100⟩)], [("a1", ⟨"a1", "custom", 100, 0, "/tmp"⟩)], [], [],
    [("a1", [])], [("a1", 100)], ⟨[("a1", 0)], [("a1", AgentStatus.WORKING)]⟩, [], true⟩

/-! ## Classification engine: renderer parser (`src/utils/parser.ts`) and
main-process `ConfigLoader.detectState` (`electron/config-loader.ts`) -/

/-- Star-free regular expression shapes sufficient for the renderer state
patterns: literal characters, character classes, concatenation, alternation
and the word boundary.  The bounded repetition of the thinking pattern is
desugared into nested alternations at pattern-construction time. -/
inductive Pat
  | eps
  | chr (c : Char)
  | cls (cs : List Char)
  | seq (p q : Pat)
  | alt (p q : Pat)
  | wb
  deriving Repr

/-- JavaScript word character: ASCII letter, digit or underscore. -/
def isWordChar (c : Char) : Bool := c.isAlpha || c.isDigit || c == '_'

/-- A word boundary holds between a word character and a non-word character;
the positions before the first and after the last character count as
non-word. -/
def atBoundary (prev : Option Char) (s : List Char) : Bool :=
  (match prev with | some c => isWordChar c | none => false) !=
  (match s with | c :: _ => isWordChar c | [] => false)

/-- One character comparison, canonicalised when the `i` flag is set. -/
def charMatches (ci : Bool) (pc a : Char) : Bool :=
  if ci then a.toLower == pc.toLower else a == pc

/-- CPS backtracking matcher: true when some prefix of `s` matches the
pattern and the continuation accepts the remainder.  `prev` is the character
just before `s`, consulted by word boundaries. -/
def Pat.mat (ci : Bool) :
    Pat → Option Char → List Char → (Option Char → List Char → Bool) → Bool
  | .eps, prev, s, k => k prev s
  | .chr c, _, s, k =>
    match s with
    | [] => false
    | a :: rest => charMatches ci c a && k (some a) rest
  | .cls cs, _, s, k =>
    match s with
    | [] => false
    | a :: rest => cs.any (fun c => charMatches ci c a) && k (some a) rest
  | .seq p q, prev, s, k => Pat.mat ci p prev s (fun prev2 s2 => Pat.mat ci q prev2 s2 k)
  | .alt p q, prev, s, k => Pat.mat ci p prev s k || Pat.mat ci q prev s k
  | .wb, prev, s, k => atBoundary prev s && k prev s

/-- Try a match at the current position and at every later position, as
`RegExp.prototype.test` does. -/
def Pat.searchFrom (ci : Bool) (p : Pat) : Option Char → List Char → Bool
  | prev, [] => Pat.mat ci p prev [] (fun _ _ => true)
  | prev, a :: rest =>
    Pat.mat ci p prev (a :: rest) (fun _ _ => true) || Pat.searchFrom ci p (some a) rest

/-- `pattern.test(s)`. -/
def regexTest (ci : Bool) (p : Pat) (s : String) : Bool :=
  Pat.searchFrom ci p none s.data

/-- A sequence of literal characters. -/
def strPat (s : String) : Pat :=
  s.data.foldr (fun c acc => Pat.seq (Pat.chr c) acc) Pat.eps

/-- `p?`: prefer matching `p`, fall back to the empty match. -/
def optPat (p : Pat) : Pat := Pat.alt p Pat.eps

/-- `p{0,3}`. -/
def upTo3 (p : Pat) : Pat := optPat (Pat.seq p (optPat (Pat.seq p (optPat p))))

/-- The thinking pattern of STATE_PATTERNS (case-insensitive, word-bounded
`Thinking` followed by up to three dots and a boundary). -/
def Parser.thinkingPattern : Pat :=
  Pat.seq Pat.wb (Pat.seq (strPat "Thinking") (Pat.seq (upTo3 (Pat.chr '.')) Pat.wb))

/-- The tool-use pattern of STATE_PATTERNS (literal bracketed `Tool Use`). -/
def Parser.toolUsePattern : Pat := strPat "[Tool Use]"

/-- The running pattern of STATE_PATTERNS (word-bounded `Running`). -/
def Parser.runningPattern : Pat :=
  Pat.seq Pat.wb (Pat.seq (strPat "Running") Pat.wb)

/-- The first error pattern of STATE_PATTERNS: word-bounded `Error` followed
by a colon or bang, or a literal bracketed `Error`. -/
def Parser.errorPattern : Pat :=
  Pat.alt (Pat.seq Pat.wb (Pat.seq (strPat "Error") (Pat.cls [':', '!'])))
    (strPat "[Error]")

/-- The exception pattern of STATE_PATTERNS (word-bounded `Exception`). -/
def Parser.exceptionPattern : Pat :=
  Pat.seq Pat.wb (Pat.seq (strPat "Exception") Pat.wb)

/-- The error-icon pattern of STATE_PATTERNS (no `i` flag). -/
def Parser.iconPattern : Pat := Pat.cls ['✖', '❌']

/-- STATE_PATTERNS of `src/utils/parser.ts`, in source order: the thinking
pattern is checked before the error patterns. -/
def Parser.STATE_PATTERNS : List (Bool × Pat × AgentStatus) :=
  [(true, Parser.thinkingPattern, AgentStatus.THINKING),
   (true, Parser.toolUsePattern, AgentStatus.WORKING),
   (true, Parser.runningPattern, AgentStatus.WORKING),
   (true, Parser.errorPattern, AgentStatus.ERROR),
   (true, Parser.exceptionPattern, AgentStatus.ERROR),
   (false, Parser.iconPattern, AgentStatus.ERROR)]

/-- The CSI branch of the extended ANSI regex, after `ESC [`: consume
`[0-9;]*` then one ASCII letter.  The two classes are disjoint, so greedy
matching needs no backtracking. -/
def Parser.takeCsi (s : List Char) : Option (List Char) :=
  match s.dropWhile (fun c => c.isDigit || c == ';') with
  | c :: r => if c.isAlpha then some r else none
  | [] => none

/-- The OSC-BEL branch, after `ESC ]`: consume `[^\x07]*` then BEL. -/
def Parser.takeOscBel (s : List Char) : Option (List Char) :=
  match s.dropWhile (fun c => !(c == '\x07')) with
  | _ :: r => some r
  | [] => none

/-- The OSC-ST branch, after `ESC ]`: consume `[^\x1b]*` then ESC and a
backslash. -/
def Parser.takeOscSt (s : List Char) : Option (List Char) :=
  match s.dropWhile (fun c => !(c == '\x1b')) with
  | _ :: c :: r => if c == '\\' then some r else none
  | _ => none

/-- `stripAnsi` on character lists, with explicit fuel so that it evaluates
by kernel reduction (every step consumes at least one character, so fuel
equal to the length suffices).  At each escape character the three branches
of the extended ANSI regex are tried in source order, mirroring leftmost
alternation; on no match the character is kept. -/
def Parser.stripAnsiCharsAux : Nat → List Char → List Char
  | 0, s => s
  | _ + 1, [] => []
  | fuel + 1, c :: rest =>
    if c == '\x1b' then
      match rest with
      | '[' :: r2 =>
        match Parser.takeCsi r2 with
        | some r3 => Parser.stripAnsiCharsAux fuel r3
        | none => c :: Parser.stripAnsiCharsAux fuel rest
      | ']' :: r2 =>
        match Parser.takeOscBel r2 with
        | some r3 => Parser.stripAnsiCharsAux fuel r3
        | none =>
          match Parser.takeOscSt r2 with
          | some r3 => Parser.stripAnsiCharsAux fuel r3
          | none => c :: Parser.stripAnsiCharsAux fuel rest
      | _ => c :: Parser.stripAnsiCharsAux fuel rest
    else c :: Parser.stripAnsiCharsAux fuel rest

/-- `stripAnsi` from `src/utils/parser.ts`. -/
def Parser.stripAnsi (input : String) : String :=
  String.mk (Parser.stripAnsiCharsAux input.data.length input.data)

/-- First-match walk over STATE_PATTERNS. -/
def Parser.detectStateGo (cleanLine : String) :
    List (Bool × Pat × AgentStatus) → Option AgentStatus
  | [] => none
  | (ci, p, status) :: rest =>
    if regexTest ci p cleanLine then some status else Parser.detectStateGo cleanLine rest

/-- `detectState` from `src/utils/parser.ts`: strip ANSI codes, then the
first matching pattern in STATE_PATTERNS order wins; null when nothing
matches. -/
def Parser.detectState (logLine : String) : Option AgentStatus :=
  Parser.detectStateGo (Parser.stripAnsi logLine) Parser.STATE_PATTERNS

/-- Pattern kinds of `config-loader.ts`. -/
inductive PatternType
  | thinking
  | tool_use
  | reading
  | searching
  | error
  | waiting
  deriving DecidableEq, Repr

/-- `CompiledPatterns`: per kind an optional compiled matcher.  A compiled
regex is abstracted as its `test` function on lines; a pattern that is
absent or failed to compile is `none`. -/
structure CompiledPatterns where
  thinking : Option (String → Bool)
  tool_use : Option (String → Bool)
  reading : Option (String → Bool)
  searching : Option (String → Bool)
  error : Option (String → Bool)
  waiting : Option (String → Bool)

/-- Field access by pattern kind. -/
def CompiledPatterns.getPattern (p : CompiledPatterns) : PatternType → Option (String → Bool)
  | .thinking => p.thinking
  | .tool_use => p.tool_use
  | .reading => p.reading
  | .searching => p.searching
  | .error => p.error
  | .waiting => p.waiting

/-- Whether the compiled pattern of the given kind matches the line (false
when absent). -/
def CompiledPatterns.matchesKind (p : CompiledPatterns) (pt : PatternType)
    (output : String) : Bool :=
  match p.getPattern pt with
  | some regex => regex output
  | none => false

/-- The fixed `patternOrder` of `ConfigLoader.detectState`. -/
def ConfigLoader.patternOrder : List PatternType :=
  [.error, .waiting, .thinking, .tool_use, .reading, .searching]

/-- The constructor default `stateMapping` of `ConfigLoader`. -/
def ConfigLoader.defaultStateMapping : PatternType → AgentStatus
  | .thinking => AgentStatus.THINKING
  | .tool_use => AgentStatus.WORKING
  | .reading => AgentStatus.WORKING
  | .searching => AgentStatus.WORKING
  | .error => AgentStatus.ERROR
  | .waiting => AgentStatus.WAITING_USER

/-- The loop of `ConfigLoader.detectState` over the priority order. -/
def ConfigLoader.detectStateGo (parser : CompiledPatterns)
    (stateMapping : PatternType → AgentStatus) (output : String) :
    List PatternType → Option AgentStatus
  | [] => none
  | pt :: rest =>
    match parser.getPattern pt with
    | some regex =>
      if regex output then some (stateMapping pt)
      else ConfigLoader.detectStateGo parser stateMapping output rest
    | none => ConfigLoader.detectStateGo parser stateMapping output rest

/-- `ConfigLoader.detectState` (main process): looks up the parser for the
agent type and evaluates its compiled patterns in the fixed priority order,
returning the mapped status of the first match; null when the type is
unknown or nothing matches. -/
def ConfigLoader.detectState (parsers : JsMap CompiledPatterns)
    (stateMapping : PatternType → AgentStatus) (agentType output : String) :
    Option AgentStatus :=
  match parsers.get agentType with
  | none => none
  | some parser =>
    ConfigLoader.detectStateGo parser stateMapping output ConfigLoader.patternOrder

/-! ## Theorems -/

theorem JsMap.hasKey_nil {α : Type} (k : String) :
    JsMap.hasKey ([] : JsMap α) k = false := rfl

theorem JsMap.hasKey_cons {α : Type} (p : String × α) (rest : JsMap α) (k : String) :
    JsMap.hasKey (p :: rest) k = (p.1 == k || JsMap.hasKey rest k) := rfl

theorem JsMap.get_nil {α : Type} (k : String) :
    JsMap.get ([] : JsMap α) k = none := rfl

theorem JsMap.get_cons {α : Type} (p : String × α) (rest : JsMap α) (k : String) :
    JsMap.get (p :: rest) k =
      if p.1 == k then some p.2 else JsMap.get rest k := by
  cases hp : p.1 == k <;> simp [JsMap.get, List.find?, hp]

theorem JsMap.delete_nil {α : Type} (k : String) :
    JsMap.delete ([] : JsMap α) k = [] := rfl

theorem JsMap.delete_cons {α : Type} (p : String × α) (rest : JsMap α) (k : String) :
    JsMap.delete (p :: rest) k =
      if p.1 == k then JsMap.delete rest k else p :: JsMap.delete rest k := by
  cases hp : p.1 == k <;> simp [JsMap.delete, List.filter, hp]

theorem JsMap.get_eq_none_of_hasKey_false {α : Type} (m : JsMap α) (k : String)
    (h : m.hasKey k = false) : m.get k = none := by
  induction m with
  | nil => rfl
  | cons p rest ih =>
    rw [JsMap.hasKey_cons] at h
    cases hp : p.1 == k with
    | true => rw [hp] at h; simp at h
    | false =>
      rw [hp, Bool.false_or] at h
      rw [JsMap.get_cons, hp, if_neg (by simp)]
      exact ih h

theorem JsMap.get_isSome_of_hasKey {α : Type} (m : JsMap α) (k : String)
    (h : m.hasKey k = true) : (m.get k).isSome = true := by
  induction m with
  | nil => exact absurd h (by simp [JsMap.hasKey_nil])
  | cons p rest ih =>
    rw [JsMap.hasKey_cons] at h
    rw [JsMap.get_cons]
    cases hp : p.1 == k with
    | true => simp
    | false =>
      rw [hp, Bool.false_or] at h
      simpa using ih h

theorem JsMap.hasKey_of_get_isSome {α : Type} (m : JsMap α) (k : String)
    (h : (m.get k).isSome = true) : m.hasKey k = true := by
  cases hk : m.hasKey k with
  | true => rfl
  | false =>
    rw [JsMap.get_eq_none_of_hasKey_false m k hk] at h
    simp at h

theorem JsMap.get_mapSet_self {α : Type} (m : JsMap α) (k : String) (v : α)
    (h : m.hasKey k = true) :
    JsMap.get (m.map (fun p => if p.1 == k then (k, v) else p)) k = some v := by
  induction m with
  | nil => exact absurd h (by simp [JsMap.hasKey_nil])
  | cons p rest ih =>
    rw [JsMap.hasKey_cons] at h
    cases hp : p.1 == k with
    | true =>
      simp only [List.map_cons, hp, if_true]
      rw [JsMap.get_cons]
      simp
    | false =>
      rw [hp, Bool.false_or] at h
      simp only [List.map_cons, hp, if_false]
      rw [JsMap.get_cons, if_neg (by simp [hp])]
      exact ih h

theorem JsMap.get_set_self {α : Type} (m : JsMap α) (k : String) (v : α) :
    (m.set k v).get k = some v := by
  unfold JsMap.set
  cases hk : m.hasKey k with
  | true =>
    rw [if_pos rfl]
    exact JsMap.get_mapSet_self m k v hk
  | false =>
    rw [if_neg (by simp)]
    induction m with
    | nil => simp [JsMap.get_cons]
    | cons p rest ih =>
      rw [JsMap.hasKey_cons] at hk
      cases hp : p.1 == k with
      | true => rw [hp] at hk; simp at hk
      | false =>
        rw [hp, Bool.false_or] at hk
        rw [List.cons_append, JsMap.get_cons, if_neg (by simp [hp])]
        exact ih hk

theorem JsMap.get_mapSet_ne {α : Type} (m : JsMap α) (k k' : String) (v : α)
    (h : (k' == k) = false) :
    JsMap.get (m.map (fun p => if p.1 == k then (k, v) else p)) k' = m.get k' := by
  have hkk : (k == k') = false := by
    cases hbe : k == k' with
    | false => rfl
    | true =>
      have : k = k' := by simpa using hbe
      subst this
      simp at h
  induction m with
  | nil => rfl
  | cons p rest ih =>
    cases hp : p.1 == k with
    | true =>
      have hpk : p.1 = k := by simpa using hp
      simp only [List.map_cons, hp, if_true]
      rw [JsMap.get_cons, if_neg (by simp [hkk]), JsMap.get_cons,
        if_neg (by simp [hpk, hkk])]
      exact ih
    | false =>
      simp only [List.map_cons, hp, if_false]
      rw [JsMap.get_cons, JsMap.get_cons]
      cases hp' : p.1 == k' with
      | true => simp [hp']
      | false => simpa [hp'] using ih

theorem JsMap.get_set_ne {α : Type} (m : JsMap α) (k k' : String) (v : α)
    (h : (k' == k) = false) : (m.set k v).get k' = m.get k' := by
  unfold JsMap.set
  cases hk : m.hasKey k with
  | true =>
    rw [if_pos rfl]
    exact JsMap.get_mapSet_ne m k k' v h
  | false =>
    rw [if_neg (by simp)]
    induction m with
    | nil =>
      have hne : ¬ k = k' := by
        intro e
        subst e
        simp at h
      simp [JsMap.get_cons, hne]
    | cons p rest ih =>
      rw [JsMap.hasKey_cons] at hk
      cases hp : p.1 == k with
      | true => rw [hp] at hk; simp at hk
      | false =>
        rw [hp, Bool.false_or] at hk
        rw [List.cons_append, JsMap.get_cons, JsMap.get_cons]
        cases hp' : p.1 == k' with
        | true => simp [hp']
        | false => simpa [hp'] using ih hk

theorem JsMap.hasKey_set_self {α : Type} (m : JsMap α) (k : String) (v : α) :
    (m.set k v).hasKey k = true :=
  JsMap.hasKey_of_get_isSome _ _ (by rw [JsMap.get_set_self]; rfl)

theorem JsMap.hasKey_delete_self {α : Type} (m : JsMap α) (k : String) :
    (m.delete k).hasKey k = false := by
  induction m with
  | nil => rfl
  | cons p rest ih =>
    rw [JsMap.delete_cons]
    cases hp : p.1 == k with
    | true => simpa using ih
    | false =>
      rw [if_neg (by simp)]
      rw [JsMap.hasKey_cons, hp, Bool.false_or]
      exact ih

theorem JsMap.get_delete_self {α : Type} (m : JsMap α) (k : String) :
    (m.delete k).get k = none :=
  JsMap.get_eq_none_of_hasKey_false _ _ (JsMap.hasKey_delete_self m k)

theorem JsMap.delete_set_self {α : Type} (m : JsMap α) (k : String) (v : α) :
    (m.set k v).delete k = m.delete k := by
  unfold JsMap.set
  cases hk : m.hasKey k with
  | true =>
    rw [if_pos rfl]
    induction m with
    | nil => rfl
    | cons p rest ih =>
      rw [JsMap.hasKey_cons] at hk
      cases hp : p.1 == k with
      | true =>
        simp only [List.map_cons, hp, if_true]
        rw [JsMap.delete_cons, if_pos (by simp), JsMap.delete_cons, if_pos (by simp [hp])]
        cases hk2 : JsMap.hasKey rest k with
        | true => exact ih hk2
        | false =>
          have hfix : rest.map (fun p => if p.1 == k then (k, v) else p) = rest := by
            have hnone : ∀ q ∈ rest, (q.1 == k) = false := by
              intro q hq
              cases hq1 : q.1 == k with
              | false => rfl
              | true =>
                exfalso
                have : JsMap.hasKey rest k = true := by
                  unfold JsMap.hasKey
                  exact List.any_eq_true.mpr ⟨q, hq, hq1⟩
                rw [this] at hk2; exact Bool.noConfusion hk2
            calc rest.map (fun p => if p.1 == k then (k, v) else p)
                = rest.map id := List.map_congr_left (fun q hq => by
                    rw [hnone q hq]; simp)
              _ = rest := List.map_id rest
          rw [hfix]
      | false =>
        rw [hp, Bool.false_or] at hk
        have hhead : (if (p.1 == k) = true then (k, v) else p) = p := by simp [hp]
        rw [List.map_cons, hhead, JsMap.delete_cons, JsMap.delete_cons,
          if_neg (by simp [hp] : ¬ (p.1 == k) = true),
          if_neg (by simp [hp] : ¬ (p.1 == k) = true), ih hk]
  | false =>
    rw [if_neg (by simp)]
    unfold JsMap.delete
    rw [List.filter_append]
    simp

theorem JsMap.hasKey_iff_mem_keys {α : Type} (m : JsMap α) (k : String) :
    m.hasKey k = true ↔ k ∈ m.map Prod.fst := by
  induction m with
  | nil => simp [JsMap.hasKey_nil]
  | cons p rest ih =>
    rw [JsMap.hasKey_cons, List.map_cons, List.mem_cons]
    cases hp : p.1 == k with
    | true =>
      have hpk : p.1 = k := by simpa using hp
      simp [hpk]
    | false =>
      have hpk : ¬ p.1 = k := by simpa using hp
      rw [Bool.false_or]
      constructor
      · intro h
        exact Or.inr (ih.mp h)
      · intro h
        rcases h with h | h
        · exact absurd h.symm hpk
        · exact ih.mpr h

theorem JsMap.set_eq_mapSet {α : Type} (m : JsMap α) (k : String) (v : α)
    (h : m.hasKey k = true) :
    m.set k v = m.map (fun p => if p.1 == k then (k, v) else p) := by
  rw [JsMap.set, if_pos h]

theorem JsMap.set_eq_append {α : Type} (m : JsMap α) (k : String) (v : α)
    (h : m.hasKey k = false) :
    m.set k v = m ++ [(k, v)] := by
  rw [JsMap.set, if_neg (by simp [h])]

theorem JsMap.keys_mapSet {α : Type} (m : JsMap α) (k : String) (v : α) :
    (m.map (fun p => if p.1 == k then (k, v) else p)).map Prod.fst = m.map Prod.fst := by
  rw [List.map_map]
  refine List.map_congr_left (fun p _ => ?_)
  cases hp : p.1 == k with
  | true =>
    have hpk : p.1 = k := by simpa using hp
    simp [hpk]
  | false =>
    have hpk : ¬ p.1 = k := by simpa using hp
    simp [hpk]

theorem JsMap.hasKey_mapSet {α : Type} (m : JsMap α) (k k' : String) (v : α) :
    JsMap.hasKey (m.map (fun p => if p.1 == k then (k, v) else p)) k' = m.hasKey k' := by
  cases hm : m.hasKey k' with
  | true =>
    exact (JsMap.hasKey_iff_mem_keys
        (m.map (fun p => if p.1 == k then (k, v) else p)) k').mpr
      (by rw [JsMap.keys_mapSet]; exact (JsMap.hasKey_iff_mem_keys m k').mp hm)
  | false =>
    cases hmm : JsMap.hasKey (m.map (fun p => if p.1 == k then (k, v) else p)) k' with
    | false => rfl
    | true =>
      exfalso
      have hmem := (JsMap.hasKey_iff_mem_keys
          (m.map (fun p => if p.1 == k then (k, v) else p)) k').mp hmm
      rw [JsMap.keys_mapSet] at hmem
      rw [(JsMap.hasKey_iff_mem_keys m k').mpr hmem] at hm
      exact Bool.noConfusion hm

theorem JsMap.keys_set {α : Type} (m : JsMap α) (k : String) (v : α) :
    (m.set k v).map Prod.fst =
      if m.hasKey k then m.map Prod.fst else m.map Prod.fst ++ [k] := by
  cases hk : m.hasKey k with
  | true => rw [JsMap.set_eq_mapSet m k v hk, if_pos rfl, JsMap.keys_mapSet]
  | false =>
    rw [JsMap.set_eq_append m k v hk, if_neg (by simp)]
    simp

theorem JsMap.keys_nodup_set {α : Type} (m : JsMap α) (k : String) (v : α)
    (h : (m.map Prod.fst).Nodup) : ((m.set k v).map Prod.fst).Nodup := by
  rw [JsMap.keys_set]
  cases hk : m.hasKey k with
  | true => simpa using h
  | false =>
    rw [if_neg (by simp)]
    have hnotmem : k ∉ m.map Prod.fst := fun hmem =>
      by rw [(JsMap.hasKey_iff_mem_keys m k).mpr hmem] at hk; exact Bool.noConfusion hk
    exact h.append (List.nodup_singleton k)
      (fun a ha hb => by
        have : a = k := by simpa using hb
        subst this
        exact hnotmem ha)

theorem JsMap.hasKey_append_single {α : Type} (m : JsMap α) (k : String) (v : α) :
    JsMap.hasKey (m ++ [(k, v)]) k = true := by
  unfold JsMap.hasKey
  rw [List.any_append]
  simp [List.any]

theorem JsMap.set_set {α : Type} (m : JsMap α) (k : String) (v w : α) :
    (m.set k v).set k w = m.set k w := by
  have hmap : ∀ l : JsMap α,
      (l.map (fun p => if p.1 == k then (k, v) else p)).map
          (fun p => if p.1 == k then (k, w) else p) =
        l.map (fun p => if p.1 == k then (k, w) else p) := by
    intro l
    rw [List.map_map]
    refine List.map_congr_left (fun p _ => ?_)
    cases hp : p.1 == k with
    | true =>
      have hpk : p.1 = k := by simpa using hp
      simp [hpk]
    | false =>
      have hpk : ¬ p.1 = k := by simpa using hp
      simp [hpk]
  cases hk : m.hasKey k with
  | true =>
    rw [JsMap.set_eq_mapSet m k v hk,
      JsMap.set_eq_mapSet _ k w (by rw [JsMap.hasKey_mapSet]; exact hk),
      JsMap.set_eq_mapSet m k w hk]
    exact hmap m
  | false =>
    have hall : ∀ p ∈ m, (p.1 == k) = false := by
      intro p hp
      cases hq : p.1 == k with
      | false => rfl
      | true =>
        exfalso
        have : JsMap.hasKey m k = true := by
          unfold JsMap.hasKey
          exact List.any_eq_true.mpr ⟨p, hp, hq⟩
        rw [this] at hk
        exact Bool.noConfusion hk
    rw [JsMap.set_eq_append m k v hk,
      JsMap.set_eq_mapSet _ k w (JsMap.hasKey_append_single m k v),
      JsMap.set_eq_append m k w hk]
    rw [List.map_append]
    congr 1
    · refine List.map_congr_left (fun p hp => ?_) |>.trans (List.map_id m)
      rw [hall p hp]
      simp
    · simp

theorem JsMap.filterKey_eq_nil_of_hasKey_false {α : Type} (m : JsMap α) (k : String)
    (h : m.hasKey k = false) : m.filter (fun p => p.1 == k) = [] := by
  induction m with
  | nil => rfl
  | cons p rest ih =>
    rw [JsMap.hasKey_cons] at h
    cases hp : p.1 == k with
    | true => rw [hp] at h; simp at h
    | false =>
      rw [hp, Bool.false_or] at h
      simpa [List.filter, hp] using ih h

theorem JsMap.filterKey_of_nodup_get {α : Type} (m : JsMap α) (k : String) (v : α)
    (hnodup : (m.map Prod.fst).Nodup) (hget : m.get k = some v) :
    m.filter (fun p => p.1 == k) = [(k, v)] := by
  induction m with
  | nil => simp [JsMap.get_nil] at hget
  | cons p rest ih =>
    rw [JsMap.get_cons] at hget
    cases hp : p.1 == k with
    | true =>
      have hpk : p.1 = k := by simpa using hp
      rw [if_pos (by simp [hp])] at hget
      have hrest : JsMap.hasKey rest k = false := by
        cases hr : JsMap.hasKey rest k with
        | false => rfl
        | true =>
          exfalso
          have : k ∈ rest.map Prod.fst := (JsMap.hasKey_iff_mem_keys rest k).mp hr
          simp only [List.map_cons, List.nodup_cons] at hnodup
          exact hnodup.1 (hpk ▸ this)
      have : (p.1, p.2) = (k, v) := by
        rw [hpk]
        simpa using hget
      simp [List.filter, hp, JsMap.filterKey_eq_nil_of_hasKey_false rest k hrest, ← this]
    | false =>
      rw [if_neg (by simp [hp])] at hget
      simp only [List.map_cons, List.nodup_cons] at hnodup
      simpa [List.filter, hp] using ih hnodup.2 hget

theorem JsMap.get_mapValues {α β : Type} (m : JsMap α) (g : α → β) (k : String) :
    JsMap.get (m.map (fun p => (p.1, g p.2))) k = (m.get k).map g := by
  induction m with
  | nil => rfl
  | cons p rest ih =>
    rw [List.map_cons, JsMap.get_cons, JsMap.get_cons]
    cases hp : p.1 == k with
    | true => simp [hp]
    | false => simpa [hp] using ih

theorem OutputThrottler.flush_state (throws : String → Bool) (b : JsMap (List String)) :
    (OutputThrottler.flush throws b).1 = b.map (fun p => (p.1, ([] : List String))) := by
  induction b with
  | nil => rfl
  | cons p rest ih =>
    obtain ⟨agentId, chunks⟩ := p
    cases chunks with
    | nil => simpa [OutputThrottler.flush] using ih
    | cons c cs => simpa [OutputThrottler.flush] using ih

theorem OutputThrottler.flush_events (throws : String → Bool) (b : JsMap (List String)) :
    (OutputThrottler.flush throws b).2.1 =
      (b.filter (fun p => !p.2.isEmpty)).map (fun p => (p.1, String.join p.2)) := by
  induction b with
  | nil => rfl
  | cons p rest ih =>
    obtain ⟨agentId, chunks⟩ := p
    cases chunks with
    | nil => simpa [OutputThrottler.flush, List.filter] using ih
    | cons c cs => simpa [OutputThrottler.flush, List.filter] using ih

theorem OutputThrottler.push_eq (b : JsMap (List String)) (agentId data : String) :
    OutputThrottler.push b agentId data =
      b.set agentId ((b.get agentId).getD [] ++ [data]) := by
  unfold OutputThrottler.push
  cases hk : b.hasKey agentId with
  | true =>
    rw [if_pos rfl]
    obtain ⟨chunks, hc⟩ : ∃ chunks, b.get agentId = some chunks :=
      Option.isSome_iff_exists.mp (JsMap.get_isSome_of_hasKey b agentId hk)
    simp [hc]
  | false =>
    rw [if_neg (by simp)]
    have h0 : JsMap.get (b.set agentId []) agentId = some [] :=
      JsMap.get_set_self b agentId []
    simp only [h0]
    rw [JsMap.set_set, JsMap.get_eq_none_of_hasKey_false b agentId hk]
    rfl

theorem OutputThrottler.push_keys_nodup (b : JsMap (List String)) (agentId data : String)
    (h : (b.map Prod.fst).Nodup) :
    ((OutputThrottler.push b agentId data).map Prod.fst).Nodup := by
  rw [OutputThrottler.push_eq]
  exact JsMap.keys_nodup_set _ _ _ h

theorem OutputThrottler.pushAll_eq (agentId : String) :
    ∀ (c : String) (cs : List String) (b : JsMap (List String)),
      (c :: cs).foldl (fun acc d => OutputThrottler.push acc agentId d) b =
        b.set agentId ((b.get agentId).getD [] ++ (c :: cs)) := by
  intro c cs
  induction cs generalizing c with
  | nil =>
    intro b
    rw [List.foldl_cons, List.foldl_nil, OutputThrottler.push_eq]
  | cons d ds ih =>
    intro b
    rw [List.foldl_cons]
    show (d :: ds).foldl (fun acc e => OutputThrottler.push acc agentId e)
        (OutputThrottler.push b agentId c) = _
    rw [ih d (OutputThrottler.push b agentId c), OutputThrottler.push_eq,
      JsMap.get_set_self, JsMap.set_set]
    simp

theorem OutputThrottler.pushAll_keys_nodup (chunks : List String) (b : JsMap (List String))
    (agentId : String) (h : (b.map Prod.fst).Nodup) :
    ((chunks.foldl (fun acc c => OutputThrottler.push acc agentId c) b).map Prod.fst).Nodup := by
  induction chunks generalizing b with
  | nil => exact h
  | cons c cs ih =>
    rw [List.foldl_cons]
    exact ih _ (OutputThrottler.push_keys_nodup b agentId c h)

theorem JsMap.filter_key_mapValues {α β : Type} (m : JsMap α) (g : α → β) (k : String) :
    (m.map (fun p => (p.1, g p.2))).filter (fun e => e.1 == k) =
      (m.filter (fun p => p.1 == k)).map (fun p => (p.1, g p.2)) := by
  induction m with
  | nil => rfl
  | cons p rest ih =>
    cases hp : p.1 == k with
    | true => simpa [List.filter, hp] using ih
    | false => simpa [List.filter, hp] using ih

theorem JsMap.filter_comm {α : Type} (m : JsMap α) (f g : String × α → Bool) :
    (m.filter f).filter g = (m.filter g).filter f := by
  induction m with
  | nil => rfl
  | cons p rest ih =>
    cases hf : f p with
    | true =>
      cases hg : g p with
      | true => simp [List.filter, hf, hg, ih]
      | false => simp [List.filter, hf, hg, ih]
    | false =>
      cases hg : g p with
      | true => simp [List.filter, hf, hg, ih]
      | false => simp [List.filter, hf, hg, ih]

theorem JsMap.hasKey_eq_false_of_get_eq_none {α : Type} (m : JsMap α) (k : String)
    (h : m.get k = none) : m.hasKey k = false := by
  cases hk : m.hasKey k with
  | false => rfl
  | true =>
    have := JsMap.get_isSome_of_hasKey m k hk
    rw [h] at this
    exact Bool.noConfusion this

theorem OutputThrottler.flush_get (throws : String → Bool) (b : JsMap (List String))
    (k : String) :
    JsMap.get (OutputThrottler.flush throws b).1 k =
      (b.get k).map (fun _ => ([] : List String)) := by
  rw [OutputThrottler.flush_state]
  induction b with
  | nil => rfl
  | cons p rest ih =>
    rw [List.map_cons, JsMap.get_cons, JsMap.get_cons]
    cases hp : p.1 == k with
    | true => simp [hp]
    | false => simpa [hp] using ih

/-- C5: pushing N >= 1 chunks for one agent between two batcher ticks and
then firing the timer invokes the sink exactly once for that agent, with the
concatenation of the N chunks in push order, and clears that agent's buffer
to the empty list; an agent whose buffer is empty receives no invocation
that tick; and the set of sink invocations is independent of which sink
callbacks throw, because a throwing callback is caught and logged and the
flush loop continues. -/
theorem outputThrottler_batches_once (buffer : JsMap (List String)) (agentId : String)
    (chunks : List String) (throws : String → Bool)
    (hkeys : (buffer.map Prod.fst).Nodup)
    (hstart : buffer.get agentId = none ∨ buffer.get agentId = some [])
    (hchunks : chunks ≠ []) :
    ((OutputThrottler.flush throws
        (chunks.foldl (fun b c => OutputThrottler.push b agentId c) buffer)).2.1.filter
      (fun e => e.1 == agentId)) = [(agentId, String.join chunks)] ∧
    JsMap.get (OutputThrottler.flush throws
        (chunks.foldl (fun b c => OutputThrottler.push b agentId c) buffer)).1 agentId =
      some [] ∧
    ((OutputThrottler.flush throws buffer).2.1.filter (fun e => e.1 == agentId)) = [] ∧
    (∀ b : JsMap (List String),
      (OutputThrottler.flush throws b).2.1 = (OutputThrottler.flush (fun _ => false) b).2.1) := by
  obtain ⟨c, cs, rfl⟩ := List.exists_cons_of_ne_nil hchunks
  have hgetD : (buffer.get agentId).getD [] = [] := by
    rcases hstart with h | h <;> rw [h] <;> rfl
  have hpush : (c :: cs).foldl (fun b d => OutputThrottler.push b agentId d) buffer =
      buffer.set agentId (c :: cs) := by
    rw [OutputThrottler.pushAll_eq agentId c cs buffer, hgetD]
    rfl
  have hget : (buffer.set agentId (c :: cs)).get agentId = some (c :: cs) :=
    JsMap.get_set_self buffer agentId (c :: cs)
  have hnodup : ((buffer.set agentId (c :: cs)).map Prod.fst).Nodup :=
    JsMap.keys_nodup_set buffer agentId (c :: cs) hkeys
  refine ⟨?_, ?_, ?_, ?_⟩
  · rw [hpush, OutputThrottler.flush_events, JsMap.filter_key_mapValues,
      JsMap.filter_comm,
      JsMap.filterKey_of_nodup_get (buffer.set agentId (c :: cs)) agentId (c :: cs) hnodup hget]
    rfl
  · rw [hpush, OutputThrottler.flush_get, hget]
    rfl
  · rw [OutputThrottler.flush_events, JsMap.filter_key_mapValues, JsMap.filter_comm]
    rcases hstart with h | h
    · rw [JsMap.filterKey_eq_nil_of_hasKey_false buffer agentId
        (JsMap.hasKey_eq_false_of_get_eq_none buffer agentId h)]
      rfl
    · rw [JsMap.filterKey_of_nodup_get buffer agentId [] hkeys h]
      rfl
  · intro b
    rw [OutputThrottler.flush_events, OutputThrottler.flush_events]

/-- Witness for the C5 theorem at a concrete buffer and chunk list. -/
theorem outputThrottler_batches_once_witness :
    ((OutputThrottler.flush (fun _ => true)
        ((["x", "y"]).foldl (fun b c => OutputThrottler.push b "a" c)
          [("b", ["q"]), ("a", [])])).2.1.filter
      (fun e => e.1 == "a")) = [("a", String.join ["x", "y"])] :=
  (outputThrottler_batches_once [("b", ["q"]), ("a", [])] "a" ["x", "y"] (fun _ => true)
    (by decide) (Or.inr (by decide)) (by decide)).1

theorem HealthMonitor.checkHealth_filter (now stallTimeout : Int) (st : JsMap AgentStatus)
    (agentId : String) :
    ∀ la : JsMap Int, (la.map Prod.fst).Nodup →
      (HealthMonitor.checkHealth now stallTimeout la st).filter (fun e => e.1 == agentId) =
        (match la.get agentId with
         | some t =>
           if ((st.get agentId).elim false AgentStatus.isBusy) && decide (now - t > stallTimeout)
           then [(agentId, now - t)] else []
         | none => []) := by
  intro la
  induction la with
  | nil => intro _; rfl
  | cons p rest ih =>
    intro hnodup
    obtain ⟨id0, t0⟩ := p
    simp only [List.map_cons, List.nodup_cons] at hnodup
    simp only [HealthMonitor.checkHealth]
    cases hp : id0 == agentId with
    | true =>
      have hid : id0 = agentId := by simpa using hp
      subst hid
      have hgetc : JsMap.get ((id0, t0) :: rest) id0 = some t0 := by
        rw [JsMap.get_cons]
        simp
      have hrest : JsMap.get rest id0 = none :=
        JsMap.get_eq_none_of_hasKey_false rest id0
          (by
            cases hr : JsMap.hasKey rest id0 with
            | false => rfl
            | true =>
              exact absurd ((JsMap.hasKey_iff_mem_keys rest id0).mp hr) hnodup.1)
      have htail : (HealthMonitor.checkHealth now stallTimeout rest st).filter
          (fun e => e.1 == id0) = [] := by
        rw [ih hnodup.2, hrest]
      simp only [hgetc]
      cases hst : st.get id0 with
      | none => simp [hst, htail]
      | some status =>
        cases hb : status.isBusy with
        | false => simp [hst, hb, htail]
        | true =>
          by_cases hgt : now - t0 > stallTimeout
          · simp [hst, hb, hgt, htail, List.filter_cons]
          · simp [hst, hb, hgt, htail]
    | false =>
      have hgetc : JsMap.get ((id0, t0) :: rest) agentId = JsMap.get rest agentId := by
        rw [JsMap.get_cons, if_neg (by simp [hp])]
      have hih := ih hnodup.2
      simp only [hgetc]
      cases hst : st.get id0 with
      | none => simpa [hst] using hih
      | some status =>
        cases hb : status.isBusy with
        | false => simpa [hst, hb] using hih
        | true =>
          by_cases hgt : now - t0 > stallTimeout
          · simpa [hst, hb, hgt, List.filter_cons, hp] using hih
          · simpa [hst, hb, hgt] using hih

/-- C7: on a watchdog tick the stall callback fires with
`(agentId, now - lastActivity)` exactly once for every tracked agent whose
recorded status is busy (`WORKING` or `THINKING`) and whose inactivity
exceeds the stall timeout, and for no other agent; and recording any
non-busy status through `updateStatus` resets that agent's activity
timestamp to now. -/
theorem healthMonitor_stall_detection (now stallTimeout : Int) (la : JsMap Int)
    (st : JsMap AgentStatus) (agentId : String)
    (hkeys : (la.map Prod.fst).Nodup) :
    (∀ t, la.get agentId = some t →
      (((st.get agentId).elim false AgentStatus.isBusy = true ∧ now - t > stallTimeout) →
        (HealthMonitor.checkHealth now stallTimeout la st).filter (fun e => e.1 == agentId) =
          [(agentId, now - t)]) ∧
      (((st.get agentId).elim false AgentStatus.isBusy = false ∨ ¬ now - t > stallTimeout) →
        (HealthMonitor.checkHealth now stallTimeout la st).filter (fun e => e.1 == agentId) =
          [])) ∧
    (la.get agentId = none →
      (HealthMonitor.checkHealth now stallTimeout la st).filter (fun e => e.1 == agentId) =
        []) ∧
    (∀ (h : HealthMonitorState) (now2 : Int) (status : AgentStatus),
      status.isBusy = false →
      (HealthMonitor.updateStatus h now2 agentId status).lastActivity.get agentId =
        some now2) := by
  refine ⟨?_, ?_, ?_⟩
  · intro t hget
    constructor
    · intro ⟨hbusy, hgt⟩
      rw [HealthMonitor.checkHealth_filter now stallTimeout st agentId la hkeys, hget]
      simp [hbusy, hgt]
    · intro hnot
      rw [HealthMonitor.checkHealth_filter now stallTimeout st agentId la hkeys, hget]
      rcases hnot with hnb | hngt
      · simp [hnb]
      · simp [hngt]
  · intro hget
    rw [HealthMonitor.checkHealth_filter now stallTimeout st agentId la hkeys, hget]
  · intro h now2 status hnb
    unfold HealthMonitor.updateStatus
    rw [if_neg (by simp [hnb])]
    exact JsMap.get_set_self _ _ _

/-- Witness for the C7 theorem: one agent recorded WORKING, inactive beyond
the timeout, receives exactly one stall invocation carrying the duration. -/
theorem healthMonitor_stall_detection_witness :
    (HealthMonitor.checkHealth 400000 300000 [("w", 0)]
      [("w", AgentStatus.WORKING)]).filter (fun e => e.1 == "w") =
      [("w", (400000 : Int) - 0)] :=
  (((healthMonitor_stall_detection 400000 300000 [("w", 0)] [("w", AgentStatus.WORKING)] "w"
    (by decide)).1 0 (by decide)).1 ⟨by decide, by decide⟩)

theorem BroadcastManager.resolveCommand_eq_spec (options : BroadcastOptions) (index : Nat) :
    BroadcastManager.resolveCommand options index =
      specResolveCommand options.template options.vars index := by
  cases hv : options.vars with
  | none => simp [BroadcastManager.resolveCommand, specResolveCommand, hv]
  | some vars =>
    simp only [BroadcastManager.resolveCommand, specResolveCommand, hv, Option.getD_some]
    refine List.foldl_ext _ _ _ (fun command q _ => ?_)
    obtain ⟨name, values⟩ := q
    cases values with
    | nil => rfl
    | cons a as => rfl

theorem JsMap.hasKey_append {α : Type} (m m2 : JsMap α) (k : String) :
    JsMap.hasKey (m ++ m2) k = (JsMap.hasKey m k || JsMap.hasKey m2 k) := by
  unfold JsMap.hasKey
  exact List.any_append

theorem JsMap.foldl_set_fresh (g : Nat × String → String) :
    ∀ (l : List (Nat × String)) (acc : JsMap String),
      (l.map Prod.snd).Nodup → (∀ p ∈ l, JsMap.hasKey acc p.2 = false) →
      l.foldl (fun r p => r.set p.2 (g p)) acc = acc ++ l.map (fun p => (p.2, g p)) := by
  intro l
  induction l with
  | nil =>
    intro acc _ _
    simp
  | cons p rest ih =>
    intro acc hnodup hfresh
    simp only [List.map_cons, List.nodup_cons] at hnodup
    rw [List.foldl_cons, JsMap.set_eq_append acc p.2 (g p) (hfresh p (by simp))]
    rw [ih (acc ++ [(p.2, g p)]) hnodup.2 (fun q hq => ?_)]
    · rw [List.map_cons, List.append_assoc, List.singleton_append]
    · rw [JsMap.hasKey_append]
      have h1 : JsMap.hasKey acc q.2 = false := hfresh q (by simp [hq])
      have h2 : (p.2 == q.2) = false := by
        have : q.2 ∈ rest.map Prod.snd := List.mem_map_of_mem Prod.snd hq
        have hne : ¬ p.2 = q.2 := fun e => hnodup.1 (e ▸ this)
        simpa using hne
      rw [h1, JsMap.hasKey_cons, h2, JsMap.hasKey_nil]
      rfl

theorem getSubstitution_no_dollar (matched before after : List Char) :
    ∀ val : List Char, '$' ∉ val → getSubstitution matched before after val = val := by
  intro val
  induction val with
  | nil => intro _; rfl
  | cons c rest ih =>
    intro h
    have hc : (c == '$') = false := by
      have hne : ¬ c = '$' := fun e => h (by rw [e]; exact List.mem_cons_self _ _)
      simpa using hne
    have hrest : '$' ∉ rest := fun hm => h (List.mem_cons_of_mem c hm)
    cases rest with
    | nil => rfl
    | cons d r =>
      simp only [getSubstitution]
      rw [if_neg (by simp [hc]), ih hrest]

theorem jsReplaceAllAux_no_dollar (str pat val : List Char) (h : '$' ∉ val) :
    ∀ (fuel pos : Nat) (sl : List Char),
      jsReplaceAllAux str pat val fuel pos sl = literalReplaceAllAux pat val fuel sl := by
  intro fuel
  induction fuel with
  | zero => intro pos sl; rfl
  | succ fuel ih =>
    intro pos sl
    cases sl with
    | nil => rfl
    | cons c rest =>
      simp only [jsReplaceAllAux, literalReplaceAllAux]
      by_cases hp : pat ≠ [] ∧ pat.isPrefixOf (c :: rest)
      · rw [if_pos hp, if_pos hp, getSubstitution_no_dollar _ _ _ val h, ih]
      · rw [if_neg hp, if_neg hp, ih]

/-- C6 (amended): `prepareBroadcast` computes exactly this mapping: targets
are all of `allAgentIds` when `tags` is absent or empty and otherwise
exactly the ids whose stored tag set contains one of the given tags, and the
target at index `i` receives the template with every literal
`\x7bname\x7d` occurrence replaced by `values[i % |values|]` (empty string
for an empty value list) interpreted under the ECMAScript `GetSubstitution`
rules of `String.prototype.replace` — which coincides with plain literal
insertion of the value whenever the value contains no dollar. -/
theorem prepareBroadcast_eq_spec (agentTags : JsMap (List String)) (options : BroadcastOptions)
    (allAgentIds : List String) (hnodup : allAgentIds.Nodup) :
    (BroadcastManager.prepareBroadcast agentTags options allAgentIds =
      specPrepareBroadcast agentTags options allAgentIds) ∧
    (∀ s pat val : String, '$' ∉ val.data →
      jsReplaceAll s pat val = literalReplaceAll s pat val) := by
  refine ⟨?_, ?_⟩
  swap
  · intro s pat val h
    unfold jsReplaceAll literalReplaceAll
    rw [jsReplaceAllAux_no_dollar s.data pat.data val.data h]
  have htargets :
      (match options.tags with
       | some ts =>
         if ts.length > 0 then
           allAgentIds.filter (fun agentId =>
             match agentTags.get agentId with
             | none => false
             | some tagSet => ts.any (fun tag => tagSet.contains tag))
         else allAgentIds
       | none => allAgentIds) = specBroadcastTargets agentTags options.tags allAgentIds := by
    cases ht : options.tags with
    | none => simp [specBroadcastTargets]
    | some ts =>
      cases ts with
      | nil => simp [specBroadcastTargets]
      | cons t ts2 =>
        simp only [specBroadcastTargets]
        rw [if_pos (by simp), if_neg (by simp)]
        refine List.filter_congr (fun a _ => ?_)
        cases hg : agentTags.get a with
        | none => simp [BroadcastManager.getTags, hg]
        | some tagSet =>
          simp only [BroadcastManager.getTags, hg, Option.getD_some]
          apply Bool.eq_iff_iff.mpr
          simp [List.any_eq_true]
  have hspecNodup : (specBroadcastTargets agentTags options.tags allAgentIds).Nodup := by
    unfold specBroadcastTargets
    by_cases hc : (options.tags.getD []).isEmpty
    · rw [if_pos hc]; exact hnodup
    · rw [if_neg hc]; exact hnodup.filter _
  unfold BroadcastManager.prepareBroadcast
  rw [htargets]
  rw [JsMap.foldl_set_fresh (fun p => BroadcastManager.resolveCommand options p.1)
    (specBroadcastTargets agentTags options.tags allAgentIds).enum []
    (by rw [List.enum_map_snd]; exact hspecNodup)
    (fun p _ => rfl)]
  rw [List.nil_append]
  unfold specPrepareBroadcast
  refine List.map_congr_left (fun p _ => ?_)
  rw [BroadcastManager.resolveCommand_eq_spec]

/-- Witness for the amended C6 theorem: four targets and a two-value
variable list receive values in the cyclic order 0, 1, 0, 1, and the
dollar-free value coincides with literal insertion. -/
theorem prepareBroadcast_eq_spec_witness :
    (BroadcastManager.prepareBroadcast []
        ⟨none, "run \x7bv\x7d", some [("v", ["0", "1"])]⟩ ["a1", "a2", "a3", "a4"] =
      specPrepareBroadcast []
        ⟨none, "run \x7bv\x7d", some [("v", ["0", "1"])]⟩ ["a1", "a2", "a3", "a4"]) ∧
    (BroadcastManager.prepareBroadcast []
        ⟨none, "run \x7bv\x7d", some [("v", ["0", "1"])]⟩ ["a1", "a2", "a3", "a4"] =
      [("a1", "run 0"), ("a2", "run 1"), ("a3", "run 0"), ("a4", "run 1")]) ∧
    jsReplaceAll "run \x7bv\x7d" "\x7bv\x7d" "0" =
      literalReplaceAll "run \x7bv\x7d" "\x7bv\x7d" "0" :=
  ⟨(prepareBroadcast_eq_spec [] ⟨none, "run \x7bv\x7d", some [("v", ["0", "1"])]⟩
      ["a1", "a2", "a3", "a4"] (by decide)).1,
   by decide,
   (prepareBroadcast_eq_spec [] ⟨none, "run \x7bv\x7d", some [("v", ["0", "1"])]⟩
      ["a1", "a2", "a3", "a4"] (by decide)).2 "run \x7bv\x7d" "\x7bv\x7d" "0" (by decide)⟩

/-- C6 counterexample: for the value `$&`, `String.prototype.replace`
re-inserts the matched placeholder instead of inserting the value, so the
resolved command is not the template with `values[i % |values|]` substituted
literally: the program yields `run \x7bv\x7d`, while literal substitution
of the selected value yields `run $&`. -/
theorem prepareBroadcast_literal_counterexample :
    BroadcastManager.prepareBroadcast []
        ⟨none, "run \x7bv\x7d", some [("v", ["$&"])]⟩ ["a1"] =
      [("a1", "run \x7bv\x7d")] ∧
    literalReplaceAll "run \x7bv\x7d" "\x7bv\x7d" "$&" = "run $&" ∧
    ¬ BroadcastManager.prepareBroadcast []
        ⟨none, "run \x7bv\x7d", some [("v", ["$&"])]⟩ ["a1"] =
      [("a1", literalReplaceAll "run \x7bv\x7d" "\x7bv\x7d" "$&")] :=
  ⟨by decide, by decide, by decide⟩

theorem OutputThrottler.flushAgent_then_remove (buf : JsMap (List String)) (agentId : String) :
    OutputThrottler.removeAgent (OutputThrottler.flushAgent buf agentId).1 agentId =
      OutputThrottler.removeAgent buf agentId := by
  unfold OutputThrottler.flushAgent OutputThrottler.removeAgent
  cases hbuf : buf.get agentId with
  | none => simp only [hbuf]
  | some chunks =>
    by_cases hlen : chunks.length > 0
    · simp only [hbuf, if_pos hlen]
      exact JsMap.delete_set_self buf agentId []
    · simp only [hbuf, if_neg hlen]

/-- C1: for a live session id, a successful `kill` reports success and
leaves no entry for the id in any tracker (throttler buffer, health activity
and status maps, tag registry, paused-status map, paused-output buffer, pty
table, metadata table, resource table), and the spontaneous process-exit
handler ends in exactly the same tracker state as `kill` does. -/
theorem kill_cleanup_complete_and_exit_converges (s : AgentManagerState) (agentId : String)
    (exitCode : Int) (hlive : (s.ptyProcesses.get agentId).isSome = true) :
    (AgentManager.killAgent s agentId none).2.2.success = true ∧
    (AgentManager.killAgent s agentId none).1.noTrackerEntry agentId = true ∧
    (AgentManager.handleExit s agentId exitCode).1 = (AgentManager.killAgent s agentId none).1 := by
  obtain ⟨pty, hget⟩ : ∃ pty, s.ptyProcesses.get agentId = some pty :=
    Option.isSome_iff_exists.mp hlive
  refine ⟨?_, ?_, ?_⟩
  · simp [AgentManager.killAgent, hget]
  · simp only [AgentManager.killAgent, hget]
    unfold AgentManagerState.noTrackerEntry AgentManager.cleanupAgent
      OutputThrottler.removeAgent ResourceMonitor.untrack HealthMonitor.untrack
      BroadcastManager.removeAgent
    simp [JsMap.hasKey_delete_self]
  · simp only [AgentManager.killAgent, hget]
    unfold AgentManager.handleExit AgentManager.cleanupAgent
    simp only [OutputThrottler.flushAgent_then_remove]

/-- Witness for the C1 theorem at a concrete one-agent state. -/
theorem kill_cleanup_complete_witness :
    (AgentManager.killAgent
      ⟨[("a1", ⟨100⟩)], [("a1", ⟨"a1", "custom", 100, 0, "/tmp"⟩)], [], [],
        [("a1", ["pending"])], [("a1", 100)], ⟨[("a1", 0)], [("a1", AgentStatus.IDLE)]⟩,
        [("a1", ["web"])], true⟩
      "a1" none).1.noTrackerEntry "a1" = true :=
  (kill_cleanup_complete_and_exit_converges
    ⟨[("a1", ⟨100⟩)], [("a1", ⟨"a1", "custom", 100, 0, "/tmp"⟩)], [], [],
      [("a1", ["pending"])], [("a1", 100)], ⟨[("a1", 0)], [("a1", AgentStatus.IDLE)]⟩,
      [("a1", ["web"])], true⟩
    "a1" 0 (by decide)).2.1

/-- C9: when the underlying `ptyProcess.kill()` throws, `killAgent` returns
the failure result and performs no cleanup at all: the entire state,
including every per-id tracker, is unchanged. -/
theorem killAgent_error_no_cleanup (s : AgentManagerState) (agentId e : String)
    (hlive : (s.ptyProcesses.get agentId).isSome = true) :
    AgentManager.killAgent s agentId (some e) = (s, [], ⟨false, some e⟩) := by
  obtain ⟨pty, hget⟩ : ∃ pty, s.ptyProcesses.get agentId = some pty :=
    Option.isSome_iff_exists.mp hlive
  simp [AgentManager.killAgent, hget]

/-- Witness for the C9 theorem at a concrete one-agent state. -/
theorem killAgent_error_no_cleanup_witness :
    AgentManager.killAgent
      ⟨[("a1", ⟨100⟩)], [("a1", ⟨"a1", "custom", 100, 0, "/tmp"⟩)], [], [],
        [("a1", ["pending"])], [("a1", 100)], ⟨[("a1", 0)], [("a1", AgentStatus.IDLE)]⟩,
        [("a1", ["web"])], true⟩
      "a1" (some "ESRCH") =
    (⟨[("a1", ⟨100⟩)], [("a1", ⟨"a1", "custom", 100, 0, "/tmp"⟩)], [], [],
        [("a1", ["pending"])], [("a1", 100)], ⟨[("a1", 0)], [("a1", AgentStatus.IDLE)]⟩,
        [("a1", ["web"])], true⟩,
      [], ⟨false, some "ESRCH"⟩) :=
  killAgent_error_no_cleanup _ "a1" "ESRCH" (by decide)

/-- `resumeAgent` on a live session that is not paused is a pure no-op. -/
theorem AgentManager.resumeAgent_noop (r : AgentManagerState) (agentId : String) (now2 : Int)
    (h1 : r.ptyProcesses.hasKey agentId = true)
    (h2 : JsMap.hasKey r.pausedAgents agentId = false) :
    AgentManager.resumeAgent r agentId now2 = (r, [], ⟨true, none⟩) := by
  unfold AgentManager.resumeAgent
  rw [if_neg (by simp [h1]), if_pos (by simp [h2])]

/-- After any `resumeAgent` call on a live session, the pty table is
unchanged and the session is not paused. -/
theorem AgentManager.resumeAgent_facts (s : AgentManagerState) (agentId : String) (now : Int)
    (hhas : s.ptyProcesses.hasKey agentId = true) :
    (AgentManager.resumeAgent s agentId now).1.ptyProcesses = s.ptyProcesses ∧
    JsMap.hasKey (AgentManager.resumeAgent s agentId now).1.pausedAgents agentId = false := by
  unfold AgentManager.resumeAgent
  rw [if_neg (by simp [hhas])]
  cases hp : s.pausedAgents.hasKey agentId with
  | false =>
    rw [if_pos (by simp [hp])]
    exact ⟨by trivial, hp⟩
  | true =>
    rw [if_neg (by simp [hp])]
    cases hbuf : JsMap.get s.pausedOutputBuffers agentId with
    | none =>
      simp only [hbuf]
      exact ⟨by trivial, JsMap.hasKey_delete_self _ _⟩
    | some bufferedOutput =>
      by_cases hne : bufferedOutput ≠ ""
      · simp only [hbuf, if_pos hne]
        exact ⟨by trivial, JsMap.hasKey_delete_self _ _⟩
      · simp only [hbuf, if_neg hne]
        exact ⟨by trivial, JsMap.hasKey_delete_self _ _⟩

/-- C8: pausing an already-paused live session returns success with no state
change and no notification; resuming a live session that is not paused does
the same; so pause twice equals pause once and resume twice equals resume
once in every observable. -/
theorem pause_resume_idempotent (s : AgentManagerState) (agentId : String) (now now2 : Int)
    (hlive : (s.ptyProcesses.get agentId).isSome = true) :
    (s.pausedAgents.hasKey agentId = true →
      AgentManager.pauseAgent s agentId now = (s, [], ⟨true, none⟩)) ∧
    (s.pausedAgents.hasKey agentId = false →
      AgentManager.resumeAgent s agentId now = (s, [], ⟨true, none⟩)) ∧
    (AgentManager.pauseAgent (AgentManager.pauseAgent s agentId now).1 agentId now2 =
      ((AgentManager.pauseAgent s agentId now).1, [], ⟨true, none⟩)) ∧
    (AgentManager.resumeAgent (AgentManager.resumeAgent s agentId now).1 agentId now2 =
      ((AgentManager.resumeAgent s agentId now).1, [], ⟨true, none⟩)) := by
  obtain ⟨pty, hget⟩ : ∃ pty, s.ptyProcesses.get agentId = some pty :=
    Option.isSome_iff_exists.mp hlive
  have hhas : s.ptyProcesses.hasKey agentId = true :=
    JsMap.hasKey_of_get_isSome _ _ (by rw [hget]; rfl)
  refine ⟨?_, ?_, ?_, ?_⟩
  · intro hp
    simp [AgentManager.pauseAgent, hget, hp]
  · intro hp
    simp [AgentManager.resumeAgent, hhas, hp]
  · cases hp : s.pausedAgents.hasKey agentId with
    | true =>
      have h1 : AgentManager.pauseAgent s agentId now = (s, [], ⟨true, none⟩) := by
        simp [AgentManager.pauseAgent, hget, hp]
      rw [h1]
      simp [AgentManager.pauseAgent, hget, hp]
    | false =>
      have h1 : (AgentManager.pauseAgent s agentId now).1 =
          { s with pausedAgents := s.pausedAgents.set agentId AgentStatus.IDLE,
                   health := HealthMonitor.updateStatus s.health now agentId AgentStatus.PAUSED } := by
        simp [AgentManager.pauseAgent, hget, hp]
      rw [h1]
      simp [AgentManager.pauseAgent, hget, JsMap.hasKey_set_self]
  · have hf := AgentManager.resumeAgent_facts s agentId now hhas
    exact AgentManager.resumeAgent_noop _ agentId now2 (by rw [hf.1]; exact hhas) hf.2

/-- Witness for the C8 theorem: pause twice at a concrete one-agent state
equals pause once. -/
theorem pause_resume_idempotent_witness :
    AgentManager.pauseAgent
      (AgentManager.pauseAgent
        ⟨[("a1", ⟨100⟩)], [("a1", ⟨"a1", "custom", 100, 0, "/tmp"⟩)], [], [],
          [("a1", [])], [("a1", 100)], ⟨[("a1", 0)], [("a1", AgentStatus.IDLE)]⟩, [], true⟩
        "a1" 3).1 "a1" 4 =
    ((AgentManager.pauseAgent
        ⟨[("a1", ⟨100⟩)], [("a1", ⟨"a1", "custom", 100, 0, "/tmp"⟩)], [], [],
          [("a1", [])], [("a1", 100)], ⟨[("a1", 0)], [("a1", AgentStatus.IDLE)]⟩, [], true⟩
        "a1" 3).1, [], ⟨true, none⟩) :=
  (pause_resume_idempotent
    ⟨[("a1", ⟨100⟩)], [("a1", ⟨"a1", "custom", 100, 0, "/tmp"⟩)], [], [],
      [("a1", [])], [("a1", 100)], ⟨[("a1", 0)], [("a1", AgentStatus.IDLE)]⟩, [], true⟩
    "a1" 3 4 (by decide)).2.2.1

/-- C2 counterexample: the session status recorded immediately before the
pause is `WORKING`, yet the status-change notification emitted by the
matching resume carries `IDLE`, because `pauseAgent` stores the constant
`IDLE` in the paused-status map instead of the current status. -/
theorem pause_resume_roundtrip_counterexample :
    c2State.health.agentStatuses.get "a1" = some AgentStatus.WORKING ∧
    c2State.pausedAgents.hasKey "a1" = false ∧
    (AgentManager.resumeAgent (AgentManager.pauseAgent c2State "a1" 5).1 "a1" 6).2.1 =
      [ManagerEvent.statusChange "a1" AgentStatus.IDLE] ∧
    ¬ (AgentManager.resumeAgent (AgentManager.pauseAgent c2State "a1" 5).1 "a1" 6).2.1 =
      [ManagerEvent.statusChange "a1" AgentStatus.WORKING] := by
  decide

/-- C2 amended: `pauseAgent` records the constant `IDLE` as the pre-pause
status, so for every live non-paused session the notification emitted by
resume after pause carries `IDLE` — the round-trip restores the pre-pause
status only when that status was `IDLE`. -/
theorem resume_after_pause_emits_idle (s : AgentManagerState) (agentId : String)
    (now now2 : Int)
    (hlive : (s.ptyProcesses.get agentId).isSome = true)
    (hnotpaused : s.pausedAgents.hasKey agentId = false)
    (hwin : s.windowAlive = true) :
    (AgentManager.resumeAgent (AgentManager.pauseAgent s agentId now).1 agentId now2).2.1 =
      [ManagerEvent.statusChange agentId AgentStatus.IDLE] := by
  obtain ⟨pty, hget⟩ : ∃ pty, s.ptyProcesses.get agentId = some pty :=
    Option.isSome_iff_exists.mp hlive
  have hhas : s.ptyProcesses.hasKey agentId = true :=
    JsMap.hasKey_of_get_isSome _ _ (by rw [hget]; rfl)
  have h1 : (AgentManager.pauseAgent s agentId now).1 =
      { s with pausedAgents := s.pausedAgents.set agentId AgentStatus.IDLE,
               health := HealthMonitor.updateStatus s.health now agentId AgentStatus.PAUSED } := by
    simp [AgentManager.pauseAgent, hget, hnotpaused]
  rw [h1]
  unfold AgentManager.resumeAgent
  rw [if_neg (by simp [hhas]), if_neg (by simp [JsMap.hasKey_set_self])]
  rw [JsMap.get_set_self]
  cases hbuf : JsMap.get s.pausedOutputBuffers agentId with
  | none => simp [hbuf, hwin]
  | some bufferedOutput =>
    by_cases hne : bufferedOutput ≠ ""
    · simp [hbuf, hne, hwin]
    · simp [hbuf, hne, hwin]

/-- Witness for the amended C2 theorem at the same concrete state as the
counterexample. -/
theorem resume_after_pause_emits_idle_witness :
    (AgentManager.resumeAgent (AgentManager.pauseAgent c2State "a1" 7).1 "a1" 8).2.1 =
      [ManagerEvent.statusChange "a1" AgentStatus.IDLE] :=
  resume_after_pause_emits_idle c2State "a1" 7 8 (by decide) (by decide) (by decide)

/-- C3: both spawn failure modes — no launch script found at any candidate
path, or `pty.spawn` throwing — return `{success: false, error}` and leave
the manager state unchanged, and the renderer store then still records a
session, in `ERROR` state with one diagnostic log line, under the id it
returns to the caller. -/
theorem spawn_failure_creates_error_session (s : AgentManagerState)
    (agents : JsMap AgentSession) (agentId fallbackId name agentType cwd : String)
    (now : Int) (scriptFound : Bool) (ptySpawn : Except String Nat)
    (hfail : scriptFound = false ∨ ∃ msg, ptySpawn = Except.error msg) :
    (AgentManager.spawnAgent s agentId agentType cwd now scriptFound ptySpawn).2.success =
      false ∧
    (AgentManager.spawnAgent s agentId agentType cwd now scriptFound ptySpawn).1 = s ∧
    ∃ msg,
      (AgentManager.spawnAgent s agentId agentType cwd now scriptFound ptySpawn).2.error =
        some msg ∧
      (agentStore.spawnAgent agents fallbackId name agentType cwd now
          (AgentManager.spawnAgent s agentId agentType cwd now scriptFound ptySpawn).2).1.get
        (agentStore.spawnAgent agents fallbackId name agentType cwd now
          (AgentManager.spawnAgent s agentId agentType cwd now scriptFound ptySpawn).2).2 =
        some ⟨fallbackId, name, agentType, AgentStatus.ERROR, cwd,
          [⟨now, "Failed to spawn agent: Error: " ++ msg, "system"⟩], now⟩ := by
  have hResult : ∃ msg,
      AgentManager.spawnAgent s agentId agentType cwd now scriptFound ptySpawn =
        (s, ⟨false, none, some msg⟩) := by
    rcases hfail with hscript | ⟨msg, hpty⟩
    · exact ⟨"Internal Error: Could not locate agent script",
        by simp [AgentManager.spawnAgent, hscript]⟩
    · cases hs : scriptFound with
      | false => exact ⟨"Internal Error: Could not locate agent script",
          by simp [AgentManager.spawnAgent]⟩
      | true => exact ⟨msg, by simp [AgentManager.spawnAgent, hpty]⟩
  obtain ⟨msg, hr⟩ := hResult
  rw [hr]
  refine ⟨rfl, rfl, msg, rfl, ?_⟩
  unfold agentStore.spawnAgent
  rw [if_neg (by simp)]
  simp only
  exact JsMap.get_set_self agents fallbackId _

/-- Witness for the C3 theorem: script-not-found at an empty store. -/
theorem spawn_failure_creates_error_session_witness :
    (AgentManager.spawnAgent
      ⟨[], [], [], [], [], [], ⟨[], []⟩, [], true⟩
      "a1" "custom" "/tmp" 0 false (Except.ok 100)).2.success = false :=
  (spawn_failure_creates_error_session
    ⟨[], [], [], [], [], [], ⟨[], []⟩, [], true⟩
    [] "a1" "fallback-1" "Custom-01" "custom" "/tmp" 0 false (Except.ok 100)
    (Or.inl rfl)).1

/-- C10: `setTags` records the tag set and reports true for every id with no
liveness check; `getTags` of an id with no recorded entry is the empty
array; and after a kill has cleared the registry entry, a later `setTags`
re-creates the tags for the dead id. -/
theorem setTags_no_liveness_check (s s2 : AgentManagerState) (agentId : String)
    (tags : List String) (hfresh : JsMap.hasKey s2.agentTags agentId = false) :
    (AgentManager.setTags s agentId tags).2 = true ∧
    AgentManager.getTags (AgentManager.setTags s agentId tags).1 agentId = jsSet tags ∧
    AgentManager.getTags s2 agentId = [] ∧
    AgentManager.getTags
        (AgentManager.setTags (AgentManager.cleanupAgent s agentId) agentId tags).1 agentId =
      jsSet tags := by
  refine ⟨rfl, ?_, ?_, ?_⟩
  · unfold AgentManager.getTags AgentManager.setTags BroadcastManager.getTags
      BroadcastManager.setTags
    rw [JsMap.get_set_self]
    rfl
  · unfold AgentManager.getTags BroadcastManager.getTags
    rw [JsMap.get_eq_none_of_hasKey_false s2.agentTags agentId hfresh]
    rfl
  · unfold AgentManager.getTags AgentManager.setTags BroadcastManager.getTags
      BroadcastManager.setTags
    rw [JsMap.get_set_self]
    rfl

/-- Witness for the C10 theorem: tags recorded for an id with no live
session in the empty state. -/
theorem setTags_no_liveness_check_witness :
    AgentManager.getTags
      (AgentManager.setTags ⟨[], [], [], [], [], [], ⟨[], []⟩, [], true⟩
        "ghost" ["web", "web", "db"]).1 "ghost" = jsSet ["web", "web", "db"] :=
  (setTags_no_liveness_check ⟨[], [], [], [], [], [], ⟨[], []⟩, [], true⟩
    ⟨[], [], [], [], [], [], ⟨[], []⟩, [], true⟩
    "ghost" ["web", "web", "db"] (by decide)).2.1

theorem ConfigLoader.detectStateGo_eq_find (parser : CompiledPatterns)
    (stateMapping : PatternType → AgentStatus) (output : String) :
    ∀ l : List PatternType,
      ConfigLoader.detectStateGo parser stateMapping output l =
        (l.find? (fun pt => parser.matchesKind pt output)).map stateMapping := by
  intro l
  induction l with
  | nil => rfl
  | cons pt rest ih =>
    unfold ConfigLoader.detectStateGo
    cases hg : parser.getPattern pt with
    | none =>
      have hm : parser.matchesKind pt output = false := by
        unfold CompiledPatterns.matchesKind
        rw [hg]
      simp [List.find?_cons, hm, ih]
    | some regex =>
      have hm : parser.matchesKind pt output = regex output := by
        unfold CompiledPatterns.matchesKind
        rw [hg]
      cases hr : regex output with
      | true => simp [List.find?_cons, hm, hr]
      | false => simp [List.find?_cons, hm, hr, ih]

/-- C4 (amended): the main-process `ConfigLoader.detectState` evaluates the
compiled patterns in the fixed order error, waiting, thinking, tool_use,
reading, searching and returns the status mapped to the first match (null
when nothing matches), so there a line matching an error pattern always
classifies as the error-mapped status regardless of any thinking match; the
renderer-side `parser.ts` `detectState`, however, checks its thinking
pattern first, so there a line matching the thinking pattern classifies as
THINKING even when an error pattern also matches. -/
theorem detectState_priority (parsers : JsMap CompiledPatterns)
    (stateMapping : PatternType → AgentStatus) (agentType output : String)
    (parser : CompiledPatterns) (hparser : parsers.get agentType = some parser) :
    (ConfigLoader.detectState parsers stateMapping agentType output =
      (ConfigLoader.patternOrder.find? (fun pt => parser.matchesKind pt output)).map
        stateMapping) ∧
    (parser.matchesKind PatternType.error output = true →
      ConfigLoader.detectState parsers stateMapping agentType output =
        some (stateMapping PatternType.error)) ∧
    (∀ logLine : String,
      regexTest true Parser.thinkingPattern (Parser.stripAnsi logLine) = true →
      Parser.detectState logLine = some AgentStatus.THINKING) := by
  have hbody : ConfigLoader.detectState parsers stateMapping agentType output =
      ConfigLoader.detectStateGo parser stateMapping output ConfigLoader.patternOrder := by
    unfold ConfigLoader.detectState
    rw [hparser]
  refine ⟨?_, ?_, ?_⟩
  · rw [hbody, ConfigLoader.detectStateGo_eq_find]
  · intro herr
    rw [hbody, ConfigLoader.detectStateGo_eq_find]
    show ((ConfigLoader.patternOrder.find? (fun pt => parser.matchesKind pt output)).map
      stateMapping) = _
    rw [show ConfigLoader.patternOrder =
      PatternType.error :: [.waiting, .thinking, .tool_use, .reading, .searching] from rfl]
    rw [List.find?_cons, herr]
    rfl
  · intro logLine hthink
    unfold Parser.detectState Parser.STATE_PATTERNS Parser.detectStateGo
    rw [if_pos hthink]

/-- Witness for the amended C4 theorem: a parser whose thinking and error
matchers both accept the line still classifies it with the error mapping. -/
theorem detectState_priority_witness :
    ConfigLoader.detectState
      [("claude", ⟨some (fun s => s == "boom"), none, none, none,
        some (fun s => s == "boom"), none⟩)]
      ConfigLoader.defaultStateMapping "claude" "boom" =
      some (ConfigLoader.defaultStateMapping PatternType.error) :=
  (detectState_priority
    [("claude", ⟨some (fun s => s == "boom"), none, none, none,
      some (fun s => s == "boom"), none⟩)]
    ConfigLoader.defaultStateMapping "claude" "boom"
    ⟨some (fun s => s == "boom"), none, none, none,
      some (fun s => s == "boom"), none⟩ rfl).2.1 (by rfl)

/-- C4 counterexample: the line `Error: Thinking` matches both the thinking
pattern and an error pattern of the renderer STATE_PATTERNS, yet
`parser.ts` `detectState` classifies it as THINKING, not ERROR, because the
thinking pattern is evaluated first there. -/
theorem classification_priority_counterexample :
    regexTest true Parser.thinkingPattern (Parser.stripAnsi "Error: Thinking") = true ∧
    regexTest true Parser.errorPattern (Parser.stripAnsi "Error: Thinking") = true ∧
    Parser.detectState "Error: Thinking" = some AgentStatus.THINKING ∧
    ¬ Parser.detectState "Error: Thinking" = some AgentStatus.ERROR := by
  refine ⟨by decide, by decide, by decide, by decide⟩

end NeuralHive
